import Mathlib

/-!
Verification of the clippy-action diagnostic pipeline.

The input/publishing glue (`src/main.ts`, `src/inputs.ts`) is embedded from
the source.  The diagnostic core (stream decoder, aggregator, renderer,
module `clippy`) is not among the given source files, so its definitions are
modelled from the specification; each such definition carries a doc comment
starting with `Modelled from the spec:`.
-/

namespace ClippyAction

/-- Modelled from the spec: closed severity enumeration (§3);
the decoder maps unrecognized levels to `note`. -/
inductive Severity
  | error
  | warning
  | note
deriving DecidableEq

/-- Levels of the external check-run scheme, produced in `main.ts`
(the strings failure, warning, notice). -/
inductive CheckLevel
  | failure
  | warning
  | notice
deriving DecidableEq

/-- Modelled from the spec: a source span (§3), with the protocol flag
marking the designated-primary span. -/
structure Span where
  file : String
  start_line : Nat
  end_line : Nat
  start_column : Nat
  end_column : Nat
  is_primary : Bool
deriving DecidableEq

/-- Modelled from the spec: one parsed diagnostic (§3). -/
structure DiagnosticRecord where
  severity : Severity
  title : String
  rendered : String
  spans : List Span
deriving DecidableEq

/-- Modelled from the spec: the primary span is the first span marked
primary by the protocol, or the first span present when none is marked
(§3, §4.1). -/
def primarySpan (r : DiagnosticRecord) : Option Span :=
  match r.spans.find? (fun s => s.is_primary) with
  | some s => some s
  | none => r.spans.head?

/-- Modelled from the spec: derived aggregation key (§3). -/
inductive AggKey
  | withSpan (file : String) (start_line end_line start_column end_column : Nat)
      (severity : Severity) (title : String)
  | noSpan (severity : Severity) (title : String) (rendered : String)
deriving DecidableEq

/-- Modelled from the spec: key derivation - the primary span fields,
severity and title when a primary span exists; otherwise severity, title
and rendered text (§3). -/
def aggKey (r : DiagnosticRecord) : AggKey :=
  match primarySpan r with
  | some s => .withSpan s.file s.start_line s.end_line s.start_column s.end_column
      r.severity r.title
  | none => .noSpan r.severity r.title r.rendered

/-- Modelled from the spec: the group file-key of a record - the file of
the primary span, or the "no file" sentinel (§3, §4.2). -/
def fileKey (r : DiagnosticRecord) : Option String :=
  (primarySpan r).map (fun s => s.file)

/-- The group file-key is a function of the aggregation key. -/
def keyFile : AggKey → Option String
  | .withSpan f _ _ _ _ _ _ => some f
  | .noSpan _ _ _ => none

/-- Modelled from the spec: a group of records sharing a file-key (§3). -/
structure Group where
  file : Option String
  records : List DiagnosticRecord
deriving DecidableEq

/-- Modelled from the spec: severity strings are matched case-sensitively
against the known set (`error`, `warning`, `note`, plus the tool alias
`error: internal compiler error`); anything unrecognized maps to `note`
(§4.1). -/
def parseSeverity (s : String) : Severity :=
  if s = "error" then .error
  else if s = "error: internal compiler error" then .error
  else if s = "warning" then .warning
  else if s = "note" then .note
  else .note

/-- Modelled from the spec: the shape of one raw line of subprocess output
as the decoder discriminates it (§4.1, §9): noise that does not parse as
the structured format, a structured message whose discriminator is not a
diagnostic (build status and the like), or a structured diagnostic carrying
a severity string, a message/title, rendered text and spans. -/
inductive Line
  | noise (text : String)
  | nonDiag (tag : String)
  | diag (level : String) (message : String) (rendered : String) (spans : List Span)
deriving DecidableEq

/-- Modelled from the spec: per-line decoding (§4.1) - non-parsing lines
and non-diagnostic structured lines are skipped; a diagnostic whose
message/title is empty is skipped, as is one whose rendered text is empty
(keeping the §3 invariant that neither field is ever empty). -/
def decodeLine : Line → Option DiagnosticRecord
  | .noise _ => none
  | .nonDiag _ => none
  | .diag level message rendered spans =>
    if message = "" then none
    else if rendered = "" then none
    else some ⟨parseSeverity level, message, rendered, spans⟩

/-- Modelled from the spec: the decoder over a finished line buffer. -/
def decode (lines : List Line) : List DiagnosticRecord :=
  lines.filterMap decodeLine

/-- Modelled from the spec: one item delivered by the underlying line
source - either a line of text or an I/O-level read failure (§4.1, §7). -/
inductive RawItem
  | line (l : Line)
  | readError (msg : String)
deriving DecidableEq

/-- Modelled from the spec: decoding a stream from a fallible line source;
a read failure of the source is the only fatal condition and surfaces as
`StreamReadFailure` (the `Except.error` case); per-line decode anomalies
are recovered locally (§4.1, §7). -/
def decodeStream : List RawItem → Except String (List DiagnosticRecord)
  | [] => .ok []
  | .readError msg :: _ => .error msg
  | .line l :: rest =>
    match decodeStream rest with
    | .error msg => .error msg
    | .ok rs => .ok ((decodeLine l).toList ++ rs)

/-- Modelled from the spec: single-pass dedup with an insertion-ordered
"already seen" key set; a record whose key was already seen is dropped
(§4.2). -/
def dedupAux (seen : List AggKey) : List DiagnosticRecord → List DiagnosticRecord
  | [] => []
  | r :: rs =>
    if aggKey r ∈ seen then dedupAux seen rs
    else r :: dedupAux (aggKey r :: seen) rs

/-- Modelled from the spec: the dedup pass of the aggregator (§4.2). -/
def dedup (rs : List DiagnosticRecord) : List DiagnosticRecord :=
  dedupAux [] rs

/-- Modelled from the spec: append a surviving record to its group,
creating the group at the end on first reference to its file-key (§4.2). -/
def insertRec (gs : List Group) (r : DiagnosticRecord) : List Group :=
  match gs with
  | [] => [⟨fileKey r, [r]⟩]
  | g :: rest =>
    if g.file = fileKey r then ⟨g.file, g.records ++ [r]⟩ :: rest
    else g :: insertRec rest r

/-- Modelled from the spec: grouping by file-key in first-seen order
(§4.2). -/
def groupRecs (rs : List DiagnosticRecord) : List Group :=
  rs.foldl insertRec []

/-- Modelled from the spec: the aggregator - dedup, then group (§4.2). -/
def aggregate (rs : List DiagnosticRecord) : List Group :=
  groupRecs (dedup rs)

/-- All records of a group sequence, flattened in group order then in-group
order. -/
def allRecs (gs : List Group) : List DiagnosticRecord :=
  (gs.map Group.records).flatten

/-- The distinct file-keys of a record stream in first-seen order, those in
`ks` excluded. -/
def newKeys (ks : List (Option String)) : List DiagnosticRecord → List (Option String)
  | [] => []
  | r :: rs =>
    if fileKey r ∈ ks then newKeys ks rs
    else fileKey r :: newKeys (fileKey r :: ks) rs

/-- The distinct file-keys of a record stream in first-seen order. -/
def firstSeenFileKeys (rs : List DiagnosticRecord) : List (Option String) :=
  newKeys [] rs

/-- The annotation value of the renderer (the projection of §3):
optional file and positions from the primary span, the record severity as
level, rendered detail and title. -/
structure Annot where
  file : Option String
  startLine : Option Nat
  endLine : Option Nat
  startColumn : Option Nat
  endColumn : Option Nat
  level : Severity
  rendered : String
  title : String
deriving DecidableEq

/-- Modelled from the spec: project one record to its annotation, omitting
file and positions when the record has no primary span (§4.3(b)). -/
def renderAnnot (r : DiagnosticRecord) : Annot :=
  match primarySpan r with
  | some s => ⟨some s.file, some s.start_line, some s.end_line,
      some s.start_column, some s.end_column, r.severity, r.rendered, r.title⟩
  | none => ⟨none, none, none, none, none, r.severity, r.rendered, r.title⟩

/-- Modelled from the spec: the flattened annotation list, in group order
then in-group record order (§4.3(b)). -/
def annots (gs : List Group) : List Annot :=
  (gs.map (fun g => g.records.map renderAnnot)).flatten

/-- Modelled from the spec: the human-oriented severity tag of a render
entry (§4.3(a)); exact visual text is not part of the contract. -/
def sevTag : Severity → String
  | .error => "error"
  | .warning => "warning"
  | .note => "note"

/-- Modelled from the spec: one formatted entry per record - severity tag,
title, rendered detail (§4.3(a)). -/
def renderEntry (r : DiagnosticRecord) : String :=
  sevTag r.severity ++ ": " ++ r.title ++ "\n" ++ r.rendered

/-- A console render block: header plus formatted entries. -/
structure RenderBlock where
  header : String
  entries : List String
deriving DecidableEq

/-- Modelled from the spec: one block per group - header is the file name
or "general", one entry per record in group order (§4.3(a)). -/
def renderBlock (g : Group) : RenderBlock :=
  ⟨g.file.getD ("general"), g.records.map renderEntry⟩

/-- Modelled from the spec: the ordered block sequence, one per group
(§4.3(a)). -/
def renderBlocks (gs : List Group) : List RenderBlock :=
  gs.map renderBlock

/-- Modelled from the spec: one full rendering pass over the aggregated
groups, producing the block sequence and the annotation list from the
groups alone - the renderer is a pure projection of the aggregated state,
so the previous renderer state does not influence the output (§4.3). -/
def renderStep (_prev : List RenderBlock × List Annot) (gs : List Group) :
    List RenderBlock × List Annot :=
  (renderBlocks gs, annots gs)

/-- The published annotation shape of the check-run request built in
`main.ts` (fields of the objects passed as `annotations`). -/
structure PubAnnot where
  annotation_level : CheckLevel
  path : String
  start_line : Nat
  end_line : Nat
  start_column : Option Nat
  end_column : Option Nat
  raw_details : String
  message : String
deriving DecidableEq

/-- The `main.ts` mapping of a renderer level to a check-run level:
`error → failure`, `warning → warning`, otherwise `notice`. -/
def annotLevel : Severity → CheckLevel
  | .error => .failure
  | .warning => .warning
  | .note => .notice

/-- JavaScript truthiness of the optional `file` field used by the
`main.ts` filter `(x) => !!x.file`: `undefined` and the empty string are
falsy. -/
def fileTruthy : Option String → Bool
  | none => false
  | some s => !(s == "")

/-- The per-annotation object built in `main.ts` for the check-run request:
`start_line`/`end_line` fall back to `0` via `|| 0`, columns pass through,
`raw_details` is the rendered text and `message` the title. -/
def publishOne (a : Annot) : PubAnnot :=
  { annotation_level := annotLevel a.level
    path := a.file.getD ("")
    start_line := a.startLine.getD 0
    end_line := a.endLine.getD 0
    start_column := a.startColumn
    end_column := a.endColumn
    raw_details := a.rendered
    message := a.title }

/-- The published annotation list of `main.ts`:
`renderer.annotations.filter((x) => !!x.file).map(...)`. -/
def publish (l : List Annot) : List PubAnnot :=
  (l.filter (fun a => fileTruthy a.file)).map publishOne

/-- The check-run completion request of `main.ts`: conclusion and summary
chosen by the clippy exit code, annotations published in either branch. -/
structure CheckRunUpdate where
  conclusion : String
  summary : String
  annotationList : List PubAnnot
deriving DecidableEq

/-- The `PATCH .../check-runs/...` payload built in `main.ts`. -/
def completeCheckRun (exitCode : Int) (rendererAnnots : List Annot) : CheckRunUpdate :=
  if exitCode = 0 then
    ⟨"success", "Clippy was successful!", publish rendererAnnots⟩
  else
    ⟨"failure", "Clippy failed.", publish rendererAnnots⟩

/-- `main.ts` final step: `process.exitCode = exitCode`. -/
def mainExitCode (exitCode : Int) : Int := exitCode

end ClippyAction

namespace ClippyAction.Inputs

/-- The `truthy` set of `inputs.ts`. -/
def truthy : List String := ["true", "True", "TRUE"]

/-- The `falsy` set of `inputs.ts`. -/
def falsy : List String := ["false", "False", "FALSE"]

/-- `getBooleanInput` of `inputs.ts`, over the fetched input value: empty
is false, the truthy set is true, the falsy set is false, anything else
throws. -/
def getBooleanInput (value : String) : Except String Bool :=
  if value = "" then .ok false
  else if value ∈ truthy then .ok true
  else if value ∈ falsy then .ok false
  else .error ("Value of key did not meet the Yaml 1.2 Core Schema specification (received: " ++ value ++ ")")

/-- `getArrayInput` of `inputs.ts`: split on the separator, drop falsy
(empty) pieces, trim each. -/
def getArrayInput (value : String) (sep : String) : List String :=
  ((value.splitOn sep).filter (fun s => !(s == ""))).map String.trim

/-- The record returned by `getInputs`. -/
structure ActionInputs where
  workingDirectory : String
  githubToken : String
  allFeatures : Bool
  checkArgs : List String
  forbid : List String
  allow : List String
  warn : List String
  deny : List String
  args : List String
deriving DecidableEq

/-- The raw values fetched by the `getInput` calls of `getInputs`, one per
action input name. -/
structure RawInputs where
  workingDirectory : String
  token : String
  allow : String
  deny : String
  forbid : String
  warn : String
  args : String
  checkArgs : String
  allFeatures : String
deriving DecidableEq

/-- `getInputs` of `inputs.ts`: returns `none` (null) when the token input
is empty; otherwise builds the record, propagating the exception of
`getBooleanInput` on the `all-features` value. -/
def getInputs (i : RawInputs) : Except String (Option ActionInputs) :=
  if i.token = "" then .ok none
  else
    match getBooleanInput i.allFeatures with
    | .error e => .error e
    | .ok b =>
      .ok (some
        { workingDirectory := i.workingDirectory
          githubToken := i.token
          allFeatures := b
          checkArgs := getArrayInput i.checkArgs " "
          forbid := getArrayInput i.forbid ","
          allow := getArrayInput i.allow ","
          warn := getArrayInput i.warn ","
          deny := getArrayInput i.deny ","
          args := getArrayInput i.args " " })

end ClippyAction.Inputs

namespace ClippyAction

/-- Characterization helper: a group extended by the matching records of a
further stream segment. -/
def extGroup (l : List DiagnosticRecord) (g : Group) : Group :=
  ⟨g.file, g.records ++ l.filter (fun r => fileKey r = g.file)⟩

/-- Characterization helper: the group a stream induces for one file-key -
all its records with that key, in stream order. -/
def mkGroup (l : List DiagnosticRecord) (f : Option String) : Group :=
  ⟨f, l.filter (fun r => fileKey r = f)⟩

/-- Characterization helper: the update `insertRec` performs on the one
group matching the file-key of the inserted record. -/
def updG (r : DiagnosticRecord) (g : Group) : Group :=
  if g.file = fileKey r then ⟨g.file, g.records ++ [r]⟩ else g

theorem keyFile_aggKey (r : DiagnosticRecord) : keyFile (aggKey r) = fileKey r := by
  unfold aggKey keyFile fileKey
  cases primarySpan r <;> rfl

theorem mem_dedupAux_not_seen {seen : List AggKey} {l : List DiagnosticRecord}
    {r : DiagnosticRecord} (h : r ∈ dedupAux seen l) : aggKey r ∉ seen := by
  induction l generalizing seen with
  | nil => simp [dedupAux] at h
  | cons x t ih =>
    by_cases hx : aggKey x ∈ seen
    · rw [dedupAux, if_pos hx] at h
      exact ih h
    · rw [dedupAux, if_neg hx] at h
      rcases List.mem_cons.mp h with hr | hr
      · subst hr; exact hx
      · intro hs
        exact (ih hr) (List.mem_cons_of_mem _ hs)

theorem find?_of_mem_dedupAux {seen : List AggKey} {l : List DiagnosticRecord}
    {r : DiagnosticRecord} (h : r ∈ dedupAux seen l) :
    l.find? (fun x => aggKey x == aggKey r) = some r := by
  induction l generalizing seen with
  | nil => simp [dedupAux] at h
  | cons x t ih =>
    by_cases hx : aggKey x ∈ seen
    · rw [dedupAux, if_pos hx] at h
      have hne : aggKey x ≠ aggKey r := by
        intro he
        exact (mem_dedupAux_not_seen h) (he ▸ hx)
      rw [List.find?_cons_of_neg _ (by simpa using hne)]
      exact ih h
    · rw [dedupAux, if_neg hx] at h
      rcases List.mem_cons.mp h with hr | hr
      · subst hr
        exact List.find?_cons_of_pos _ (by simp)
      · have hnotin := mem_dedupAux_not_seen hr
        have hne : aggKey x ≠ aggKey r := by
          intro he
          exact hnotin (he ▸ List.mem_cons_self _ _)
        rw [List.find?_cons_of_neg _ (by simpa using hne)]
        exact ih hr

theorem pairwise_dedupAux (seen : List AggKey) (l : List DiagnosticRecord) :
    (dedupAux seen l).Pairwise (fun a b => aggKey a ≠ aggKey b) := by
  induction l generalizing seen with
  | nil => simp [dedupAux]
  | cons x t ih =>
    by_cases hx : aggKey x ∈ seen
    · rw [dedupAux, if_pos hx]
      exact ih seen
    · rw [dedupAux, if_neg hx]
      refine List.Pairwise.cons ?_ (ih _)
      intro b hb he
      exact (mem_dedupAux_not_seen hb) (he ▸ List.mem_cons_self _ _)

theorem exists_mem_dedupAux_of_mem {l : List DiagnosticRecord}
    {r : DiagnosticRecord} {seen : List AggKey} (h : r ∈ l) (hs : aggKey r ∉ seen) :
    ∃ q, q ∈ dedupAux seen l ∧ aggKey q = aggKey r := by
  induction l generalizing seen with
  | nil => cases h
  | cons x t ih =>
    by_cases hx : aggKey x ∈ seen
    · rw [dedupAux, if_pos hx]
      rcases List.mem_cons.mp h with hr | hr
      · exact absurd (hr ▸ hx) hs
      · exact ih hr hs
    · rw [dedupAux, if_neg hx]
      by_cases hk : aggKey r = aggKey x
      · exact ⟨x, List.mem_cons_self _ _, hk.symm⟩
      · rcases List.mem_cons.mp h with hr | hr
        · exact absurd (hr ▸ rfl) hk
        · obtain ⟨q, hq, hqk⟩ := ih hr (by
            intro hmem
            rcases List.mem_cons.mp hmem with h1 | h1
            · exact hk h1
            · exact hs h1)
          exact ⟨q, List.mem_cons_of_mem _ hq, hqk⟩

theorem mem_of_mem_dedupAux {seen : List AggKey} {l : List DiagnosticRecord}
    {r : DiagnosticRecord} (h : r ∈ dedupAux seen l) : r ∈ l :=
  List.mem_of_find?_eq_some (find?_of_mem_dedupAux h)

theorem allRecs_cons (g : Group) (gs : List Group) :
    allRecs (g :: gs) = g.records ++ allRecs gs := rfl

theorem allRecs_insertRec (gs : List Group) (r : DiagnosticRecord) :
    (allRecs (insertRec gs r)).Perm (allRecs gs ++ [r]) := by
  induction gs with
  | nil => simp [insertRec, allRecs]
  | cons g rest ih =>
    rw [insertRec]
    by_cases hf : g.file = fileKey r
    · rw [if_pos hf, allRecs_cons, allRecs_cons, List.append_assoc, List.append_assoc]
      exact (@List.perm_append_comm _ [r] (allRecs rest)).append_left g.records
    · rw [if_neg hf, allRecs_cons, allRecs_cons, List.append_assoc]
      exact (ih.trans (@List.perm_append_comm _ (allRecs rest) [r])).append_left g.records
        |>.trans ((@List.perm_append_comm _ [r] (allRecs rest)).append_left g.records)

theorem allRecs_foldl (l : List DiagnosticRecord) (gs : List Group) :
    (allRecs (l.foldl insertRec gs)).Perm (allRecs gs ++ l) := by
  induction l generalizing gs with
  | nil => simp
  | cons r t ih =>
    rw [List.foldl_cons]
    refine (ih (insertRec gs r)).trans ?_
    have h1 := (allRecs_insertRec gs r).append_right t
    refine h1.trans ?_
    rw [List.append_assoc]
    rfl

theorem allRecs_aggregate_perm (rs : List DiagnosticRecord) :
    (allRecs (aggregate rs)).Perm (dedup rs) := by
  have h := allRecs_foldl (dedup rs) []
  simpa [aggregate, groupRecs, allRecs] using h

end ClippyAction

namespace ClippyAction

theorem updG_file (r : DiagnosticRecord) (g : Group) : (updG r g).file = g.file := by
  unfold updG
  split <;> rfl

theorem newKeys_congr {ks1 ks2 : List (Option String)}
    (h : ∀ x, x ∈ ks1 ↔ x ∈ ks2) (l : List DiagnosticRecord) :
    newKeys ks1 l = newKeys ks2 l := by
  induction l generalizing ks1 ks2 with
  | nil => rfl
  | cons r t ih =>
    by_cases hk : fileKey r ∈ ks1
    · rw [newKeys, if_pos hk, newKeys, if_pos ((h _).mp hk)]
      exact ih h
    · rw [newKeys, if_neg hk, newKeys, if_neg (fun hm => hk ((h _).mpr hm))]
      congr 1
      exact ih (fun x => by simp [List.mem_cons, h x])

theorem newKeys_not_mem {ks : List (Option String)} {l : List DiagnosticRecord}
    {f : Option String} (h : f ∈ newKeys ks l) : f ∉ ks := by
  induction l generalizing ks with
  | nil => simp [newKeys] at h
  | cons r t ih =>
    by_cases hk : fileKey r ∈ ks
    · rw [newKeys, if_pos hk] at h
      exact ih h
    · rw [newKeys, if_neg hk] at h
      rcases List.mem_cons.mp h with h1 | h1
      · exact h1 ▸ hk
      · intro hm
        exact (ih h1) (List.mem_cons_of_mem _ hm)

theorem insertRec_of_not_mem {gs : List Group} {r : DiagnosticRecord}
    (h : fileKey r ∉ gs.map Group.file) :
    insertRec gs r = gs ++ [⟨fileKey r, [r]⟩] := by
  induction gs with
  | nil => rfl
  | cons g rest ih =>
    have hne : g.file ≠ fileKey r := by
      intro he
      refine h ?_
      rw [List.map_cons]
      exact List.mem_cons.mpr (Or.inl he.symm)
    rw [insertRec, if_neg hne, ih (fun hm => h (by rw [List.map_cons]; exact List.mem_cons_of_mem _ hm))]
    rfl

theorem map_updG_of_not_mem {gs : List Group} {r : DiagnosticRecord}
    (h : fileKey r ∉ gs.map Group.file) :
    gs.map (updG r) = gs := by
  induction gs with
  | nil => rfl
  | cons g rest ih =>
    have hne : g.file ≠ fileKey r := by
      intro he
      refine h ?_
      rw [List.map_cons]
      exact List.mem_cons.mpr (Or.inl he.symm)
    rw [List.map_cons, updG, if_neg hne,
      ih (fun hm => h (by rw [List.map_cons]; exact List.mem_cons_of_mem _ hm))]

theorem insertRec_of_mem {gs : List Group} {r : DiagnosticRecord}
    (hnd : (gs.map Group.file).Nodup) (h : fileKey r ∈ gs.map Group.file) :
    insertRec gs r = gs.map (updG r) := by
  induction gs with
  | nil => simp at h
  | cons g rest ih =>
    by_cases he : g.file = fileKey r
    · have hnotin : fileKey r ∉ rest.map Group.file := by
        rw [List.map_cons] at hnd
        exact he ▸ (List.nodup_cons.mp hnd).1
      rw [insertRec, if_pos he, List.map_cons, updG, if_pos he,
        map_updG_of_not_mem hnotin]
    · have h2 : fileKey r ∈ rest.map Group.file := by
        rw [List.map_cons] at h
        rcases List.mem_cons.mp h with h1 | h1
        · exact absurd h1.symm he
        · exact h1
      have hnd2 : (rest.map Group.file).Nodup := by
        rw [List.map_cons] at hnd
        exact (List.nodup_cons.mp hnd).2
      rw [insertRec, if_neg he, List.map_cons, updG, if_neg he, ih hnd2 h2]

theorem foldl_insertRec_eq (l : List DiagnosticRecord) (gs : List Group)
    (hnd : (gs.map Group.file).Nodup) :
    l.foldl insertRec gs =
      gs.map (extGroup l) ++ (newKeys (gs.map Group.file) l).map (mkGroup l) := by
  induction l generalizing gs with
  | nil =>
    have hid : extGroup [] = id := by
      funext g
      simp [extGroup]
    simp [newKeys, hid]
  | cons r t ih =>
    rw [List.foldl_cons]
    by_cases hmem : fileKey r ∈ gs.map Group.file
    · rw [insertRec_of_mem hnd hmem]
      have hkeys : (gs.map (updG r)).map Group.file = gs.map Group.file := by
        rw [List.map_map]
        exact List.map_congr_left (fun g _ => updG_file r g)
      have hnd2 : ((gs.map (updG r)).map Group.file).Nodup := by
        rw [hkeys]
        exact hnd
      rw [ih _ hnd2, hkeys]
      congr 1
      · rw [List.map_map]
        refine List.map_congr_left (fun g _ => ?_)
        show extGroup t (updG r g) = extGroup (r :: t) g
        by_cases he : g.file = fileKey r
        · simp [extGroup, updG, if_pos he, he, List.filter_cons, List.append_assoc]
        · have hne : fileKey r ≠ g.file := fun hh => he hh.symm
          simp [extGroup, updG, if_neg he, List.filter_cons, hne]
      · rw [newKeys, if_pos hmem]
        refine List.map_congr_left (fun f hf => ?_)
        have hne : fileKey r ≠ f := by
          intro hh
          exact (newKeys_not_mem hf) (hh ▸ hmem)
        simp [mkGroup, List.filter_cons, hne]
    · rw [insertRec_of_not_mem hmem]
      have hdisj : (gs.map Group.file).Disjoint
          ([(⟨fileKey r, [r]⟩ : Group)].map Group.file) := by
        intro a ha hb
        simp at hb
        exact hmem (hb ▸ ha)
      have hnd2 : (((gs ++ [(⟨fileKey r, [r]⟩ : Group)]).map Group.file)).Nodup := by
        rw [List.map_append]
        exact hnd.append (by simp) hdisj
      rw [ih _ hnd2, newKeys, if_neg hmem]
      simp only [List.map_append, List.map_cons, List.map_nil]
      have h1 : gs.map (extGroup t) = gs.map (extGroup (r :: t)) := by
        refine List.map_congr_left (fun g hg => ?_)
        have hne : fileKey r ≠ g.file := by
          intro hh
          refine hmem ?_
          rw [hh]
          exact List.mem_map_of_mem Group.file hg
        simp [extGroup, List.filter_cons, hne]
      have h2 : extGroup t (⟨fileKey r, [r]⟩ : Group) = mkGroup (r :: t) (fileKey r) := by
        simp [extGroup, mkGroup, List.filter_cons]
      have h3 : newKeys (gs.map Group.file ++ [fileKey r]) t
          = newKeys (fileKey r :: gs.map Group.file) t :=
        newKeys_congr (fun x => by simp [List.mem_append, List.mem_cons, or_comm]) t
      have h4 : (newKeys (fileKey r :: gs.map Group.file) t).map (mkGroup t)
          = (newKeys (fileKey r :: gs.map Group.file) t).map (mkGroup (r :: t)) := by
        refine List.map_congr_left (fun f hf => ?_)
        have hne : fileKey r ≠ f := by
          intro hh
          exact (newKeys_not_mem hf) (List.mem_cons.mpr (Or.inl hh.symm))
        simp [mkGroup, List.filter_cons, hne]
      rw [h1, h2, h3, h4, List.append_assoc]
      rfl

theorem newKeys_dedupAux (l : List DiagnosticRecord) (seen : List AggKey)
    (ks : List (Option String)) (hin : ∀ k ∈ seen, keyFile k ∈ ks) :
    newKeys ks (dedupAux seen l) = newKeys ks l := by
  induction l generalizing seen ks with
  | nil => rfl
  | cons x t ih =>
    by_cases hx : aggKey x ∈ seen
    · rw [dedupAux, if_pos hx]
      have hfx : fileKey x ∈ ks := by
        have := hin _ hx
        rwa [keyFile_aggKey] at this
      rw [ih _ _ hin, newKeys, if_pos hfx]
    · rw [dedupAux, if_neg hx]
      by_cases hfx : fileKey x ∈ ks
      · rw [newKeys, if_pos hfx, newKeys, if_pos hfx]
        refine ih _ _ (fun k hk => ?_)
        rcases List.mem_cons.mp hk with h1 | h1
        · rw [h1, keyFile_aggKey]
          exact hfx
        · exact hin _ h1
      · rw [newKeys, if_neg hfx, newKeys, if_neg hfx]
        congr 1
        refine ih _ _ (fun k hk => ?_)
        rcases List.mem_cons.mp hk with h1 | h1
        · rw [h1, keyFile_aggKey]
          exact List.mem_cons_self _ _
        · exact List.mem_cons_of_mem _ (hin _ h1)

theorem firstSeenFileKeys_dedup (rs : List DiagnosticRecord) :
    firstSeenFileKeys (dedup rs) = firstSeenFileKeys rs := by
  unfold firstSeenFileKeys dedup
  exact newKeys_dedupAux rs [] [] (by simp)

end ClippyAction

namespace ClippyAction

theorem decode_cons (x : Line) (t : List Line) :
    decode (x :: t) = (decodeLine x).toList ++ decode t := by
  unfold decode
  rw [List.filterMap_cons]
  cases decodeLine x <;> rfl

theorem decode_filter_eq {p : Line → Bool}
    (hp : ∀ l, p l = false → decodeLine l = none) (ls : List Line) :
    decode (ls.filter p) = decode ls := by
  induction ls with
  | nil => rfl
  | cons x t ih =>
    by_cases hx : p x
    · rw [List.filter_cons, if_pos hx, decode_cons, decode_cons, ih]
    · have hfx : p x = false := by simpa using hx
      rw [List.filter_cons, if_neg (by simp [hfx]), decode_cons, hp x hfx, ih]
      rfl

theorem decodeStream_map_line (ls : List Line) :
    decodeStream (ls.map RawItem.line) = Except.ok (decode ls) := by
  induction ls with
  | nil => rfl
  | cons x t ih =>
    rw [List.map_cons, decodeStream, ih, decode_cons]

theorem decodeStream_error_iff (items : List RawItem) :
    (∃ e, decodeStream items = Except.error e)
      ↔ (∃ m, RawItem.readError m ∈ items) := by
  induction items with
  | nil => simp [decodeStream]
  | cons x t ih =>
    cases x with
    | readError m => simp [decodeStream]
    | line l =>
      rw [decodeStream]
      constructor
      · rintro ⟨e, he⟩
        cases hd : decodeStream t with
        | error m =>
          obtain ⟨m2, hm⟩ := ih.mp ⟨m, hd⟩
          exact ⟨m2, List.mem_cons_of_mem _ hm⟩
        | ok rs =>
          rw [hd] at he
          simp at he
      · rintro ⟨m, hm⟩
        rcases List.mem_cons.mp hm with h1 | h1
        · cases h1
        · obtain ⟨e, he⟩ := ih.mpr ⟨m, h1⟩
          rw [he]
          exact ⟨e, rfl⟩

/-- C1: among all decoded records sharing an aggregation key, only the
first in stream order appears in any group of the aggregated output: the
surviving records have pairwise distinct keys, each survivor is literally
the first record of the stream whose key matches its own (so any later
record with an equal key - even with different rendered text - is dropped),
and every stream record has a surviving representative for its key. -/
theorem c1_dedup_only_first (rs : List DiagnosticRecord) :
    (allRecs (aggregate rs)).Pairwise (fun a b => aggKey a ≠ aggKey b)
    ∧ (∀ r, r ∈ allRecs (aggregate rs) →
        rs.find? (fun x => aggKey x == aggKey r) = some r)
    ∧ (∀ r, r ∈ rs → ∃ q, q ∈ allRecs (aggregate rs) ∧ aggKey q = aggKey r) := by
  have hperm := allRecs_aggregate_perm rs
  refine ⟨?_, ?_, ?_⟩
  · have hsym : ∀ {a b : DiagnosticRecord},
        aggKey a ≠ aggKey b → aggKey b ≠ aggKey a :=
      fun h he => h he.symm
    exact (hperm.pairwise_iff hsym).mpr (pairwise_dedupAux [] rs)
  · intro r hr
    exact find?_of_mem_dedupAux (hperm.mem_iff.mp hr)
  · intro r hr
    obtain ⟨q, hq, hk⟩ := exists_mem_dedupAux_of_mem hr (List.not_mem_nil _)
    exact ⟨q, hperm.mem_iff.mpr hq, hk⟩

theorem c1_dedup_only_first_app :
    List.find?
      (fun x => aggKey x == aggKey
        (⟨Severity.error, "unused variable", "rendered one",
          [⟨"src/lib.rs", 10, 10, 5, 9, true⟩]⟩ : DiagnosticRecord))
      [⟨Severity.error, "unused variable", "rendered one",
          [⟨"src/lib.rs", 10, 10, 5, 9, true⟩]⟩,
        ⟨Severity.error, "unused variable", "rendered two",
          [⟨"src/lib.rs", 10, 10, 5, 9, true⟩]⟩,
        ⟨Severity.warning, "deprecated attribute", "rendered three", []⟩]
      = some ⟨Severity.error, "unused variable", "rendered one",
          [⟨"src/lib.rs", 10, 10, 5, 9, true⟩]⟩ :=
  (c1_dedup_only_first
    [⟨Severity.error, "unused variable", "rendered one",
        [⟨"src/lib.rs", 10, 10, 5, 9, true⟩]⟩,
      ⟨Severity.error, "unused variable", "rendered two",
        [⟨"src/lib.rs", 10, 10, 5, 9, true⟩]⟩,
      ⟨Severity.warning, "deprecated attribute", "rendered three", []⟩]).2.1
    ⟨Severity.error, "unused variable", "rendered one",
      [⟨"src/lib.rs", 10, 10, 5, 9, true⟩]⟩ (by decide)

/-- C4: the aggregated output is exactly one group per file-key, in the
order the file-keys are first referenced in the input record stream; each
group carries the surviving (deduplicated) records of its file-key in
stream order; rendering emits one block per group in that same order, so
groups are never reordered alphabetically or by severity. -/
theorem c4_ordering_invariant (rs : List DiagnosticRecord) :
    aggregate rs = (firstSeenFileKeys rs).map (mkGroup (dedup rs))
    ∧ renderBlocks (aggregate rs) = (aggregate rs).map renderBlock := by
  constructor
  · have h := foldl_insertRec_eq (dedup rs) [] (by simp)
    rw [aggregate, groupRecs, h]
    simp only [List.map_nil, List.nil_append]
    rw [← firstSeenFileKeys_dedup rs]
    rfl
  · rfl

/-- C2: published annotation levels are computed from the record severity
as error to failure, warning to warning, note to notice; a severity string
the decoder does not recognize parses to note and is therefore published
as notice; and every published annotation carries exactly the level mapped
from the level of its source annotation. -/
theorem c2_severity_mapping :
    (annotLevel Severity.error = CheckLevel.failure
      ∧ annotLevel Severity.warning = CheckLevel.warning
      ∧ annotLevel Severity.note = CheckLevel.notice)
    ∧ (∀ s : String, s ≠ "error" → s ≠ "error: internal compiler error" →
        s ≠ "warning" → s ≠ "note" →
        parseSeverity s = Severity.note
          ∧ annotLevel (parseSeverity s) = CheckLevel.notice)
    ∧ (∀ r : DiagnosticRecord,
        (publishOne (renderAnnot r)).annotation_level = annotLevel r.severity)
    ∧ (∀ (l : List Annot) (p : PubAnnot), p ∈ publish l →
        ∃ a, a ∈ l ∧ p = publishOne a
          ∧ p.annotation_level = annotLevel a.level) := by
  refine ⟨⟨rfl, rfl, rfl⟩, ?_, ?_, ?_⟩
  · intro s h1 h2 h3 h4
    have h5 : parseSeverity s = Severity.note := by
      unfold parseSeverity
      rw [if_neg h1, if_neg h2, if_neg h3, if_neg h4]
    exact ⟨h5, by rw [h5]; exact rfl⟩
  · intro r
    unfold renderAnnot publishOne
    cases primarySpan r <;> rfl
  · intro l p hp
    unfold publish at hp
    rcases List.mem_map.mp hp with ⟨a, ha, hpa⟩
    exact ⟨a, (List.mem_filter.mp ha).1, hpa.symm, hpa ▸ rfl⟩

theorem c2_severity_mapping_app :
    parseSeverity ("help") = Severity.note
    ∧ annotLevel (parseSeverity ("help")) = CheckLevel.notice :=
  c2_severity_mapping.2.1 ("help") (by decide) (by decide) (by decide) (by decide)

/-- C3: the externally published annotation list is exactly the renderer
annotations with a truthy (present and non-empty) file field, while every
record of every group - including one with no primary span, whose
annotation has no file and is therefore excluded from publishing - is
retained in the annotation list and in the console block of its group. -/
theorem c3_published_exactly_with_file (gs : List Group) :
    (∀ p : PubAnnot, p ∈ publish (annots gs) ↔
      ∃ a, a ∈ annots gs ∧ fileTruthy a.file = true ∧ p = publishOne a)
    ∧ (∀ g, g ∈ gs → ∀ r, r ∈ g.records →
        renderAnnot r ∈ annots gs
        ∧ renderEntry r ∈ (renderBlock g).entries
        ∧ (primarySpan r = none → fileTruthy (renderAnnot r).file = false)) := by
  constructor
  · intro p
    constructor
    · intro hp
      unfold publish at hp
      rcases List.mem_map.mp hp with ⟨a, ha, hpa⟩
      rcases List.mem_filter.mp ha with ⟨ha1, ha2⟩
      exact ⟨a, ha1, ha2, hpa.symm⟩
    · rintro ⟨a, ha, hft, rfl⟩
      unfold publish
      exact List.mem_map.mpr ⟨a, List.mem_filter.mpr ⟨ha, hft⟩, rfl⟩
  · intro g hg r hr
    refine ⟨?_, ?_, ?_⟩
    · unfold annots
      refine List.mem_flatten.mpr ⟨g.records.map renderAnnot, ?_, List.mem_map_of_mem _ hr⟩
      exact List.mem_map.mpr ⟨g, hg, rfl⟩
    · exact List.mem_map_of_mem _ hr
    · intro hps
      unfold renderAnnot
      rw [hps]
      rfl

theorem c3_published_exactly_with_file_app :
    fileTruthy (renderAnnot
      (⟨Severity.warning, "deprecated attribute", "rendered detail", []⟩
        : DiagnosticRecord)).file = false :=
  ((c3_published_exactly_with_file
      [⟨none, [⟨Severity.warning, "deprecated attribute", "rendered detail", []⟩]⟩]).2
    ⟨none, [⟨Severity.warning, "deprecated attribute", "rendered detail", []⟩]⟩
    (by decide)
    ⟨Severity.warning, "deprecated attribute", "rendered detail", []⟩
    (by decide)).2.2 (by decide)

/-- C5: removing from an input stream any subset of lines that decode to
nothing (plain text, truncated structured lines, build-status notices)
leaves the decoded record stream - hence the annotation list - unchanged;
a stream of plain lines never produces an error, and the only fatal
condition is a read failure of the underlying line source, surfaced as the
error case of `decodeStream`. -/
theorem c5_malformed_line_tolerance (ls : List Line) (p : Line → Bool)
    (hp : ∀ l, p l = false → decodeLine l = none) :
    annots (aggregate (decode (ls.filter p))) = annots (aggregate (decode ls))
    ∧ decodeStream ((ls.filter p).map RawItem.line) = Except.ok (decode ls)
    ∧ (∀ items : List RawItem,
        (∃ e, decodeStream items = Except.error e)
          ↔ (∃ m, RawItem.readError m ∈ items)) := by
  refine ⟨?_, ?_, decodeStream_error_iff⟩
  · rw [decode_filter_eq hp]
  · rw [decodeStream_map_line, decode_filter_eq hp]

theorem c5_malformed_line_tolerance_app :
    annots (aggregate (decode
      (([Line.noise ("Compiling foo v0.1.0"),
          Line.diag ("warning") ("deprecated attribute") ("rendered detail")
            [⟨"src/lib.rs", 3, 3, 1, 2, true⟩],
          Line.nonDiag ("build-finished")] : List Line).filter
        (fun l => (decodeLine l).isSome))))
    = annots (aggregate (decode
      ([Line.noise ("Compiling foo v0.1.0"),
        Line.diag ("warning") ("deprecated attribute") ("rendered detail")
          [⟨"src/lib.rs", 3, 3, 1, 2, true⟩],
        Line.nonDiag ("build-finished")] : List Line))) :=
  (c5_malformed_line_tolerance
    [Line.noise ("Compiling foo v0.1.0"),
      Line.diag ("warning") ("deprecated attribute") ("rendered detail")
        [⟨"src/lib.rs", 3, 3, 1, 2, true⟩],
      Line.nonDiag ("build-finished")]
    (fun l => (decodeLine l).isSome)
    (fun l h => by
      cases hdl : decodeLine l
      · rfl
      · simp [hdl] at h)).1

/-- C6: rendering the same aggregated group sequence twice yields
identical block sequences and annotation lists - the renderer is a pure
projection of the groups, so a second pass reproduces the first exactly
and consumes nothing. -/
theorem c6_renderer_idempotent (gs : List Group)
    (prev : List RenderBlock × List Annot) :
    renderStep (renderStep prev gs) gs = renderStep prev gs
    ∧ (renderStep prev gs).1 = renderBlocks gs
    ∧ (renderStep prev gs).2 = annots gs :=
  ⟨rfl, rfl, rfl⟩

/-- C7: the check-run conclusion is success exactly when the clippy exit
code is 0 and failure otherwise, the process exit code is the clippy exit
code, and the published annotation list is the same in both branches - the
verdict never depends on the presence or count of diagnostics, so a run
with exit code 0 may still carry annotations. -/
theorem c7_exit_code_verdict (exitCode : Int) (l : List Annot) :
    ((completeCheckRun exitCode l).conclusion = "success" ↔ exitCode = 0)
    ∧ ((completeCheckRun exitCode l).conclusion = "failure" ↔ exitCode ≠ 0)
    ∧ (completeCheckRun exitCode l).annotationList = publish l
    ∧ mainExitCode exitCode = exitCode := by
  unfold completeCheckRun mainExitCode
  by_cases h : exitCode = 0
  · rw [if_pos h]
    exact ⟨⟨fun _ => h, fun _ => rfl⟩,
      ⟨fun hc => absurd (show "success" = "failure" from hc) (by decide),
        fun hn => absurd h hn⟩, rfl, rfl⟩
  · rw [if_neg h]
    exact ⟨⟨fun hc => absurd (show "failure" = "success" from hc) (by decide),
        fun h0 => absurd h0 h⟩,
      ⟨fun _ => h, fun _ => rfl⟩, rfl, rfl⟩

/-- C8: every record produced by the decoder has a non-empty title and
non-empty rendered text - a line that parses as a diagnostic but carries
an empty message is skipped - and consequently every record reaching the
aggregated groups is non-blank as well. -/
theorem c8_nonblank_records (ls : List Line) :
    (∀ r, r ∈ decode ls → r.title ≠ "" ∧ r.rendered ≠ "")
    ∧ (∀ r, r ∈ allRecs (aggregate (decode ls)) →
        r.title ≠ "" ∧ r.rendered ≠ "") := by
  have hmain : ∀ r, r ∈ decode ls → r.title ≠ "" ∧ r.rendered ≠ "" := by
    intro r hr
    unfold decode at hr
    rcases List.mem_filterMap.mp hr with ⟨l, _, hdl⟩
    cases l with
    | noise t => simp [decodeLine] at hdl
    | nonDiag t => simp [decodeLine] at hdl
    | diag lv msg rend spans =>
      simp only [decodeLine] at hdl
      by_cases h1 : msg = ""
      · rw [if_pos h1] at hdl
        cases hdl
      · rw [if_neg h1] at hdl
        by_cases h2 : rend = ""
        · rw [if_pos h2] at hdl
          cases hdl
        · rw [if_neg h2] at hdl
          have hre := Option.some.inj hdl
          rw [← hre]
          exact ⟨h1, h2⟩
  refine ⟨hmain, fun r hr => hmain r ?_⟩
  have hperm := allRecs_aggregate_perm (decode ls)
  exact mem_of_mem_dedupAux (hperm.mem_iff.mp hr)

theorem c8_nonblank_records_app :
    (⟨Severity.warning, "deprecated attribute", "rendered detail", []⟩
        : DiagnosticRecord).title ≠ ""
    ∧ (⟨Severity.warning, "deprecated attribute", "rendered detail", []⟩
        : DiagnosticRecord).rendered ≠ "" :=
  (c8_nonblank_records
    [Line.diag ("warning") ("deprecated attribute") ("rendered detail") []]).1
    ⟨Severity.warning, "deprecated attribute", "rendered detail", []⟩ (by decide)

/-- C9: getInputs returns null exactly when the token input is empty; for
the all-features input, getBooleanInput is false on the empty value, true
exactly on true/True/TRUE, false on false/False/FALSE, and throws on any
other non-empty value, in which case getInputs propagates the exception
instead of returning null. -/
theorem c9_inputs_contract (i : Inputs.RawInputs) :
    (Inputs.getInputs i = Except.ok none ↔ i.token = "")
    ∧ Inputs.getBooleanInput ("") = Except.ok false
    ∧ (∀ v, v ∈ Inputs.truthy → Inputs.getBooleanInput v = Except.ok true)
    ∧ (∀ v, v ∈ Inputs.falsy → Inputs.getBooleanInput v = Except.ok false)
    ∧ (∀ v, v ≠ "" → v ∉ Inputs.truthy → v ∉ Inputs.falsy →
        ∃ e, Inputs.getBooleanInput v = Except.error e)
    ∧ (∀ e, Inputs.getBooleanInput i.allFeatures = Except.error e →
        i.token ≠ "" → Inputs.getInputs i = Except.error e) := by
  refine ⟨?_, rfl, ?_, ?_, ?_, ?_⟩
  · constructor
    · intro h
      by_contra hne
      unfold Inputs.getInputs at h
      rw [if_neg hne] at h
      cases hb : Inputs.getBooleanInput i.allFeatures with
      | error e =>
        rw [hb] at h
        simp at h
      | ok b =>
        rw [hb] at h
        simp at h
    · intro h
      unfold Inputs.getInputs
      rw [if_pos h]
  · intro v hv
    simp [Inputs.truthy] at hv
    rcases hv with h | h | h <;> subst h <;> rfl
  · intro v hv
    simp [Inputs.falsy] at hv
    rcases hv with h | h | h <;> subst h <;> rfl
  · intro v h0 ht hf
    have hres : Inputs.getBooleanInput v = Except.error
        ("Value of key did not meet the Yaml 1.2 Core Schema specification (received: "
          ++ v ++ ")") := by
      unfold Inputs.getBooleanInput
      rw [if_neg h0, if_neg ht, if_neg hf]
    exact ⟨_, hres⟩
  · intro e he hne
    unfold Inputs.getInputs
    rw [if_neg hne, he]

theorem c9_inputs_contract_app :
    Inputs.getBooleanInput ("True") = Except.ok true
    ∧ Inputs.getBooleanInput ("FALSE") = Except.ok false :=
  ⟨(c9_inputs_contract ⟨"", "tok", "", "", "", "", "", "", ""⟩).2.2.1
      ("True") (by decide),
    (c9_inputs_contract ⟨"", "tok", "", "", "", "", "", "", ""⟩).2.2.2.1
      ("FALSE") (by decide)⟩

/-- C10: in the published annotation object, start and end line fall back
to 0 when the renderer value is absent (and trivially when it is 0, via
the JavaScript or-fallback), the columns are passed through unchanged and
may be absent, the message is the title and the raw details are the
rendered text. -/
theorem c10_published_field_mapping (a : Annot) :
    ((a.startLine = none ∨ a.startLine = some 0) → (publishOne a).start_line = 0)
    ∧ ((a.endLine = none ∨ a.endLine = some 0) → (publishOne a).end_line = 0)
    ∧ (∀ n, a.startLine = some n → (publishOne a).start_line = n)
    ∧ (∀ n, a.endLine = some n → (publishOne a).end_line = n)
    ∧ (publishOne a).start_column = a.startColumn
    ∧ (publishOne a).end_column = a.endColumn
    ∧ (publishOne a).message = a.title
    ∧ (publishOne a).raw_details = a.rendered := by
  refine ⟨?_, ?_, ?_, ?_, rfl, rfl, rfl, rfl⟩
  · rintro (h | h) <;> simp [publishOne, h]
  · rintro (h | h) <;> simp [publishOne, h]
  · intro n h
    simp [publishOne, h]
  · intro n h
    simp [publishOne, h]

theorem c10_published_field_mapping_app :
    (publishOne (⟨some ("src/lib.rs"), none, none, some 5, some 9,
      Severity.error, "rendered detail", "title text"⟩ : Annot)).start_line = 0 :=
  (c10_published_field_mapping
    ⟨some ("src/lib.rs"), none, none, some 5, some 9,
      Severity.error, "rendered detail", "title text"⟩).1 (Or.inl rfl)

end ClippyAction
